import Mathlib

/-!
Verification of the `voter` repository's consensus core ("First-to-Ahead-by-K"
voting).  The source contains two near-identical implementations (the `Game`
and `Project` vocabularies); following the spec they are embedded once, using
the `Project` names.  Modelling conventions:

* `time.Time` / `time.Duration` are embedded as `Int` nanosecond values; every
  service operation takes the current time `now` explicitly where the source
  calls `time.Now()`.
* Go's `map[string]int` is embedded as an association list with distinct keys;
  list order stands for one concrete iteration order of the Go map (Go map
  iteration order is unspecified).
* Go `int` / `int64` arithmetic is embedded as `Int`; `time.Duration` division
  (which truncates toward zero) is `Int.div`.
* Go `float64` is embedded as `ℚ`; all float operations appearing in the
  theorems below (+, -, *, /, comparisons, Abs, Min, Max) are exact on the
  rationals involved.  `math.Sqrt` is modelled by `ratSqrt` (exact on perfect
  squares); no theorem below depends on a code path that reaches it.
* The persistence collaborator (JSON store) is modelled as always succeeding,
  so a service operation is a pure function from a project state (plus inputs)
  to `Except SvcError` of the new state.
-/

namespace Voter

/-- `ProjectState` from internal/models/project.go. -/
inductive ProjectState where
  | active
  | paused
  | completed
  | cancelled
deriving DecidableEq, Repr

/-- `DecisionState` from internal/models/project.go. -/
inductive DecisionState where
  | voting
  | completed
  | cancelled
deriving DecidableEq, Repr

/-- A Go `map[string]int` vote-count mapping, as an association list. -/
abbrev VoteMap := List (String × Int)

/-- `Decision` struct from internal/models/project.go. -/
structure Decision where
  id : String
  projectID : String
  turnNumber : Int
  description : String
  options : List String
  state : DecisionState
  winner : Option String
  votes : VoteMap
  createdAt : Int
  completedAt : Option Int
  votingStarted : Int
deriving DecidableEq, Repr

/-- `ProjectMetrics` struct from internal/models/project.go. -/
structure ProjectMetrics where
  totalDecisions : Int
  averageConsensusTime : Int
  totalVotes : Int
deriving DecidableEq, Repr

/-- `Project` struct from internal/models/project.go. -/
structure Project where
  id : String
  name : String
  state : ProjectState
  k : Int
  maxTurns : Int
  currentTurn : Int
  createdAt : Int
  updatedAt : Int
  completedAt : Option Int
  score : Int
  metrics : ProjectMetrics
  decisions : List Decision
deriving DecidableEq, Repr

/-- Reading a key of the vote map (`d.Votes[option]` presence check); `none`
models the key being absent. -/
def lookupCount (vs : VoteMap) (o : String) : Option Int :=
  match vs with
  | [] => none
  | p :: rest => if p.1 = o then some p.2 else lookupCount rest o

/-- Go map assignment `votes[o] = n`: overwrite the entry if the key is
present, otherwise add it. -/
def setCount (vs : VoteMap) (o : String) (n : Int) : VoteMap :=
  match vs with
  | [] => [(o, n)]
  | p :: rest => if p.1 = o then (o, n) :: rest else p :: setCount rest o n

/-- Go map increment `votes[o]++` on a key known to be present. -/
def incrCount (vs : VoteMap) (o : String) : VoteMap :=
  match vs with
  | [] => []
  | p :: rest => if p.1 = o then (p.1, p.2 + 1) :: rest else p :: incrCount rest o

/-- The loop in `NewDecision` that initializes every option's count to 0
(`for _, option := range options { votes[option] = 0 }`). -/
def mkVotes (options : List String) : VoteMap :=
  options.foldl (fun vs o => setCount vs o 0) []

/-- `NewDecision` from internal/models/project.go. -/
def newDecision (id projectID description : String) (turnNumber : Int)
    (options : List String) (now : Int) : Decision :=
  { id := id
    projectID := projectID
    turnNumber := turnNumber
    description := description
    options := options
    state := .voting
    winner := none
    votes := mkVotes options
    createdAt := now
    completedAt := none
    votingStarted := now }

/-- `NewProject` from internal/models/project.go. -/
def newProject (id name : String) (k maxTurns : Int) (now : Int) : Project :=
  { id := id
    name := name
    state := .active
    k := k
    maxTurns := maxTurns
    currentTurn := 0
    createdAt := now
    updatedAt := now
    completedAt := none
    score := 0
    metrics := { totalDecisions := 0, averageConsensusTime := 0, totalVotes := 0 }
    decisions := [] }

/-- The accumulator step of `CheckWinner`'s first loop (strict improvement
keeps the earlier entry on ties, like the Go loop). -/
def maxStep (acc p : String × Int) : String × Int :=
  if p.2 > acc.2 then p else acc

/-- `Decision.CheckWinner` from internal/models/project.go: find the entry
with the most votes starting from the zero value `("", 0)`, then fail if any
other entry is within `k` votes of it. -/
def Decision.checkWinner (d : Decision) (k : Int) : Option String :=
  if d.votes.length = 0 then none
  else
    let best := d.votes.foldl maxStep ("", 0)
    if d.votes.any (fun p => p.1 != best.1 && decide (best.2 - p.2 < k)) then none
    else some best.1

/-- `Decision.AddVote` from internal/models/project.go; the `Bool` is the Go
return value, the `Decision` is the (possibly) mutated receiver. -/
def Decision.addVote (d : Decision) (option : String) : Decision × Bool :=
  if d.state ≠ .voting then (d, false)
  else if (lookupCount d.votes option).isNone then (d, false)
  else ({ d with votes := incrCount d.votes option }, true)

/-- `Service.getTotalVotes` from internal/project/service.go. -/
def Decision.sumVotes (d : Decision) : Int :=
  (d.votes.map (fun p => p.2)).sum

/-- `Project.IsComplete` from internal/models/project.go. -/
def Project.isComplete (p : Project) : Bool :=
  p.state == .completed || p.state == .cancelled

/-- `Project.CanAcceptVotes` from internal/models/project.go. -/
def Project.canAcceptVotes (p : Project) : Bool :=
  p.state == .active

/-- The backward loop of `Project.GetCurrentDecision` (scan the decisions
from the last to the first, return the first one in state Voting); the index
records the position so the service's writes through the returned pointer can
be modelled with `List.set`. -/
def lastVotingIdx : List Decision → Option (Nat × Decision)
  | [] => none
  | d :: rest =>
    match lastVotingIdx rest with
    | some (i, x) => some (i + 1, x)
    | none => if d.state == .voting then some (0, d) else none

/-- `Project.GetCurrentDecision` from internal/models/project.go. -/
def Project.getCurrentDecision (p : Project) : Option Decision :=
  (lastVotingIdx p.decisions).map (fun e => e.2)

/-- The error values of internal/project/service.go (persistence failures are
not modelled: the store collaborator is taken as always succeeding). -/
inductive SvcError where
  | projectNotActive
  | activeDecisionExists
  | decisionNotFound
  | votingClosed
  | invalidVote
  | projectAlreadyComplete
deriving DecidableEq, Repr

/-- `Service.CreateProject` from internal/project/service.go: builds the
project and saves it; no validation of `k` or `maxTurns` is performed. -/
def createProject (id name : String) (k maxTurns : Int) (now : Int) :
    Except SvcError Project :=
  .ok (newProject id name k maxTurns now)

/-- `Service.StartDecision` from internal/project/service.go (the store read
and write are modelled as always succeeding). -/
def startDecision (p : Project) (decisionID description : String)
    (options : List String) (now : Int) : Except SvcError (Project × Decision) :=
  if ¬ p.canAcceptVotes then .error .projectNotActive
  else if (p.getCurrentDecision).isSome then .error .activeDecisionExists
  else
    let d := newDecision decisionID p.id description (p.currentTurn + 1) options now
    .ok ({ p with decisions := p.decisions ++ [d],
                  currentTurn := d.turnNumber,
                  updatedAt := now }, d)

/-- The loop of `Service.CastVote` that sums `CompletedAt - VotingStarted`
over the decisions whose `CompletedAt` is set. -/
def completedDurations (ds : List Decision) : List Int :=
  ds.filterMap (fun d => d.completedAt.map (fun c => c - d.votingStarted))

/-- `Service.CastVote` from internal/project/service.go, inlining
`VotingService.CastVote` from internal/project/voting.go (which re-checks the
decision state and then calls `Decision.AddVote`).  The decision returned by
`GetCurrentDecision` is a pointer into the project's slice, so mutations
through it are modelled by `List.set` at the recorded index. -/
def castVote (p : Project) (decisionID agentID option : String) (now : Int) :
    Except SvcError Project :=
  if ¬ p.canAcceptVotes then .error .projectNotActive
  else
    match lastVotingIdx p.decisions with
    | none => .error .decisionNotFound
    | some (i, d) =>
      if d.id ≠ decisionID then .error .decisionNotFound
      else if d.state ≠ .voting then .error .votingClosed
      else if d.state ≠ .voting then .error .votingClosed
      else
        match d.addVote option with
        | (_, false) => .error .invalidVote
        | (d1, true) =>
          match d1.checkWinner p.k with
          | none => .ok { p with decisions := p.decisions.set i d1, updatedAt := now }
          | some w =>
            let d2 : Decision :=
              { d1 with state := .completed, winner := some w, completedAt := some now }
            let ds := p.decisions.set i d2
            let td := p.metrics.totalDecisions + 1
            let tv := p.metrics.totalVotes + d2.sumVotes
            let avg := if td > 0 then Int.tdiv (completedDurations ds).sum td
                       else p.metrics.averageConsensusTime
            .ok { p with decisions := ds,
                         metrics := { totalDecisions := td,
                                      averageConsensusTime := avg,
                                      totalVotes := tv },
                         updatedAt := now }

/-- `Service.EndProject` from internal/project/service.go. -/
def endProject (p : Project) (now : Int) : Except SvcError Project :=
  if p.isComplete then .error .projectAlreadyComplete
  else
    let p1 : Project :=
      { p with state := .completed, completedAt := some now, updatedAt := now }
    match lastVotingIdx p1.decisions with
    | none => .ok p1
    | some (i, d) =>
      .ok { p1 with decisions := p1.decisions.set i { d with state := .cancelled } }

/-- The project states reachable by a sequence of service operations starting
from `CreateProject` (each operation supplied with an arbitrary clock value
and arbitrary request arguments; failed operations leave the state
unchanged). -/
inductive Reachable : Project → Prop where
  | create (id name : String) (k maxTurns now : Int) :
      Reachable (newProject id name k maxTurns now)
  | start {p p' : Project} {d : Decision} (h : Reachable p)
      {decisionID description : String} {options : List String} {now : Int}
      (hs : startDecision p decisionID description options now = .ok (p', d)) :
      Reachable p'
  | vote {p p' : Project} (h : Reachable p)
      {decisionID agentID option : String} {now : Int}
      (hv : castVote p decisionID agentID option now = .ok p') :
      Reachable p'
  | finish {p p' : Project} (h : Reachable p) {now : Int}
      (he : endProject p now = .ok p') :
      Reachable p'

/-- Number of decisions currently in the Voting state. -/
def countVoting (ds : List Decision) : Nat :=
  ds.countP (fun d => d.state == .voting)

/-- Number of decisions whose `CompletedAt` timestamp is set. -/
def completedCount (ds : List Decision) : Nat :=
  ds.countP (fun d => d.completedAt.isSome)

/-- Consensus durations `CompletedAt - VotingStarted` of the decisions in the
Completed state (the spec's notion used for the average-consensus-time
claim). -/
def consensusTimes (ds : List Decision) : List Int :=
  (ds.filter (fun d => d.state == .completed)).map
    (fun d => d.completedAt.getD 0 - d.votingStarted)

/-- Integer mean of a duration list (`time.Duration` division truncates
toward zero, hence `Int.div`). -/
def meanInt (l : List Int) : Int :=
  Int.tdiv l.sum (l.length : Int)

/-- `time.Duration.Seconds()` (nanoseconds to seconds, as a float) on the
rational embedding of `float64`. -/
def secondsQ (d : Int) : ℚ :=
  (d : ℚ) / 1000000000

/-- `math.Sqrt` on the rational embedding of `float64`: exact whenever
`num * den` is a perfect square (in particular at 0 and 1).  The only code
path using it (the standard-deviation branch of `calculateQualityScore` with
two or more completed decisions) is not relied on by any theorem below. -/
def ratSqrt (q : ℚ) : ℚ :=
  (Nat.sqrt (q.num.toNat * q.den) : ℚ) / (q.den : ℚ)

/-- Go's `int(x)` conversion of a `float64`: truncation toward zero. -/
def goTrunc (q : ℚ) : Int :=
  Int.tdiv q.num (q.den : Int)

/-- `GameScore` struct from internal/metrics/scoring.go.  The duplicated
project-vocabulary scorer extends it with a `GameAverageConsensusTime` field;
the game-vocabulary scorer leaves that field at its zero value. -/
structure GameScore where
  gameID : String
  totalScore : Int
  completionBonus : Int
  efficiencyBonus : Int
  participationBonus : Int
  qualityScore : ℚ
  speedScore : ℚ
  consensusScore : ℚ
  gameAverageConsensusTime : Int
deriving DecidableEq, Repr

/-- `Scorer.calculateMeanDuration` from internal/metrics/scoring.go. -/
def calculateMeanDuration (durations : List Int) : ℚ :=
  if durations.length = 0 then 0
  else (durations.map secondsQ).sum / (durations.length : ℚ)

/-- `Scorer.calculateQualityScore` from internal/metrics/scoring.go (the
`Game` and `Project` copies are identical). -/
def calculateQualityScore (g : Project) : ℚ :=
  if g.metrics.totalDecisions = 0 then 0
  else
    let times := g.decisions.filterMap
      (fun d => d.completedAt.map (fun c => c - d.votingStarted))
    if times.length < 2 then 1 / 2
    else
      let mean := calculateMeanDuration times
      let variance := ((times.map (fun t => (secondsQ t - mean) ^ 2)).sum) / (times.length : ℚ)
      let stdDev := ratSqrt variance
      min 1 (max 0 (1 - stdDev / 60))

/-- `Scorer.calculateSpeedScore` from internal/metrics/scoring.go (identical
in both copies). -/
def calculateSpeedScore (g : Project) : ℚ :=
  if g.metrics.averageConsensusTime = 0 then 0
  else
    let avgSeconds := secondsQ g.metrics.averageConsensusTime
    let deviation := |avgSeconds - 30|
    min 1 (max 0 (1 - deviation / 60))

/-- `Scorer.calculateConsensusScore` from internal/metrics/scoring.go
(identical in both copies): mean winner vote-share over the decisions with a
winner, a completion timestamp and a positive vote total.  A Go map read of
an absent key yields the zero value, hence `getD 0`. -/
def calculateConsensusScore (g : Project) : ℚ :=
  if g.decisions.length = 0 then 0
  else
    let strengths := g.decisions.filterMap (fun d =>
      match d.winner, d.completedAt with
      | some w, some _ =>
        let winnerVotes := (lookupCount d.votes w).getD 0
        let totalVotes := (d.votes.map (fun p => p.2)).sum
        if totalVotes > 0 then some ((winnerVotes : ℚ) / (totalVotes : ℚ)) else none
      | _, _ => none)
    if strengths.length = 0 then 0
    else strengths.sum / (strengths.length : ℚ)

/-- `Scorer.CalculateGameScore` from internal/metrics/scoring.go (the scorer
named in the spec's SessionScore).  When `AverageConsensusTime ≤ 0` the
source skips the `TotalScore += EfficiencyBonus` line with the bonus still 0,
which is the same as always adding the bonus.  Note the quality, speed and
consensus sub-scores are computed and stored but never added to
`TotalScore`. -/
def calculateGameScore (g : Project) : Option GameScore :=
  if ¬ g.isComplete then none
  else
    let completionBonus : Int := if g.state = .completed then 100 else 0
    let efficiencyBonus : Int :=
      if g.metrics.averageConsensusTime > 0 then
        let avgSeconds := secondsQ g.metrics.averageConsensusTime
        if avgSeconds < 10 then 50
        else if avgSeconds < 30 then 30
        else if avgSeconds < 60 then 15
        else 0
      else 0
    let participationBonus : Int := g.metrics.totalVotes * 2
    some { gameID := g.id
           totalScore := g.metrics.totalDecisions * 10 + completionBonus
                           + efficiencyBonus + participationBonus
           completionBonus := completionBonus
           efficiencyBonus := efficiencyBonus
           participationBonus := participationBonus
           qualityScore := calculateQualityScore g
           speedScore := calculateSpeedScore g
           consensusScore := calculateConsensusScore g
           gameAverageConsensusTime := 0 }

/-- `Scorer.CalculateProjectScore`, the project-vocabulary duplicate of the
scorer: same shape but different efficiency tiers, and it does add the
integer-truncated (`int(...)`, i.e. toward zero) quality, speed and consensus
sub-scores to `TotalScore`. -/
def calculateProjectScore (g : Project) : Option GameScore :=
  if ¬ g.isComplete then none
  else
    let completionBonus : Int := if g.state = .completed then 100 else 0
    let efficiencyBonus : Int :=
      if g.metrics.averageConsensusTime > 0 then
        let avgSeconds := secondsQ g.metrics.averageConsensusTime
        if avgSeconds < 30 then 50
        else if avgSeconds < 60 then 25
        else 0
      else 0
    let participationBonus : Int := g.metrics.totalVotes * 2
    let quality := calculateQualityScore g
    let speed := calculateSpeedScore g
    let consensus := calculateConsensusScore g
    some { gameID := g.id
           totalScore := g.metrics.totalDecisions * 10 + completionBonus
                           + efficiencyBonus + participationBonus
                           + goTrunc quality + goTrunc speed + goTrunc consensus
           completionBonus := completionBonus
           efficiencyBonus := efficiencyBonus
           participationBonus := participationBonus
           qualityScore := quality
           speedScore := speed
           consensusScore := consensus
           gameAverageConsensusTime := g.metrics.averageConsensusTime }

/-- The project invariants maintained by the service: at most one decision is
in the Voting state, the `TotalDecisions` metric counts the decisions with a
completion timestamp, and a decision carries a completion timestamp exactly
when it is in the Completed state. -/
def WF (p : Project) : Prop :=
  countVoting p.decisions ≤ 1 ∧
  p.metrics.totalDecisions = (completedCount p.decisions : Int) ∧
  ∀ d ∈ p.decisions, (d.completedAt.isSome ↔ d.state = .completed)

/-- The state update `CastVote` performs when a winner is found: complete the
decision in place and refresh the metrics (a name for the winning branch of
`castVote`, used to state its dissection lemma). -/
def winUpdate (p : Project) (i : Nat) (d1 : Decision) (w : String) (now : Int) : Project :=
  let d2 : Decision := { d1 with state := .completed, winner := some w, completedAt := some now }
  let ds := p.decisions.set i d2
  let td := p.metrics.totalDecisions + 1
  { p with decisions := ds,
           metrics := { totalDecisions := td,
                        averageConsensusTime :=
                          if td > 0 then Int.tdiv (completedDurations ds).sum td
                          else p.metrics.averageConsensusTime,
                        totalVotes := p.metrics.totalVotes + d2.sumVotes },
           updatedAt := now }

/-- Example decision of spec §8: options A, B, C with votes 3, 1, 0. -/
def decisionABC : Decision :=
  { id := "d", projectID := "p", turnNumber := 1, description := "q",
    options := ["A", "B", "C"], state := .voting, winner := none,
    votes := [("A", 3), ("B", 1), ("C", 0)],
    createdAt := 0, completedAt := none, votingStarted := 0 }

/-- A decision over options A, B with no votes cast yet. -/
def decisionAB0 : Decision :=
  { id := "d", projectID := "p", turnNumber := 1, description := "q",
    options := ["A", "B"], state := .voting, winner := none,
    votes := [("A", 0), ("B", 0)],
    createdAt := 0, completedAt := none, votingStarted := 0 }

/-- A single-option decision with no votes cast yet. -/
def decisionA0 : Decision :=
  { id := "d", projectID := "p", turnNumber := 1, description := "q",
    options := ["A"], state := .voting, winner := none,
    votes := [("A", 0)],
    createdAt := 0, completedAt := none, votingStarted := 0 }

/-- A fresh project with K = 1 and MaxTurns = 10 created at time 0. -/
def projWit : Project := newProject "s" "n" 1 10 0

/-- The fresh decision started on `projWit`. -/
def decWit : Decision := newDecision "d1" "s" "q" 1 ["A", "B"] 0

/-- `projWit` after `startDecision` has opened `decWit`. -/
def projWit1 : Project :=
  { projWit with decisions := [decWit], currentTurn := 1, updatedAt := 0 }

/-- `decWit` after one vote for A. -/
def decWitVoted : Decision := { decWit with votes := [("A", 1), ("B", 0)] }

/-- `decWitVoted` completed with winner A at time 7. -/
def decWitDone : Decision :=
  { decWitVoted with state := .completed, winner := some "A", completedAt := some 7 }

/-- `projWit1` after the vote for A at time 7 reached the K = 1 threshold. -/
def projWit2 : Project :=
  { projWit1 with
      decisions := [decWitDone],
      metrics := { totalDecisions := 1, averageConsensusTime := 7, totalVotes := 1 },
      updatedAt := 7 }

/-- A completed decision with winner A and votes A = 2, B = 0, started and
completed at time 0. -/
def decScore : Decision :=
  { id := "d1", projectID := "g1", turnNumber := 1, description := "q",
    options := ["A", "B"], state := .completed, winner := some "A",
    votes := [("A", 2), ("B", 0)],
    createdAt := 0, completedAt := some 0, votingStarted := 0 }

/-- A second completed decision identical to `decScore` except for its id. -/
def decScore2 : Decision :=
  { id := "d2", projectID := "g1", turnNumber := 2, description := "q",
    options := ["A", "B"], state := .completed, winner := some "A",
    votes := [("A", 2), ("B", 0)],
    createdAt := 0, completedAt := some 0, votingStarted := 0 }

/-- A completed session holding `decScore` and `decScore2`: two completed
decisions, four votes in total, zero average consensus time. -/
def gameScoreEx : Project :=
  { id := "g1", name := "g", state := .completed, k := 2, maxTurns := 10,
    currentTurn := 2, createdAt := 0, updatedAt := 0, completedAt := some 0,
    score := 0,
    metrics := { totalDecisions := 2, averageConsensusTime := 0, totalVotes := 4 },
    decisions := [decScore, decScore2] }

/-- The score the game scorer produces on `gameScoreEx`: total 128
(10·2 + 100 + 0 + 2·4), with sub-scores quality 1 (both consensus times
equal, zero standard deviation), speed 0 and consensus 1 (unanimous winners)
reported but not included in the total. -/
def gameScoreExResult : GameScore :=
  { gameID := "g1", totalScore := 128, completionBonus := 100,
    efficiencyBonus := 0, participationBonus := 8,
    qualityScore := 1, speedScore := 0, consensusScore := 1,
    gameAverageConsensusTime := 0 }

/-! ### Vote-map lemmas -/

theorem lookupCount_incrCount_self {vs : VoteMap} {o : String} {c : Int}
    (h : lookupCount vs o = some c) :
    lookupCount (incrCount vs o) o = some (c + 1) := by
  induction vs with
  | nil => simp [lookupCount] at h
  | cons p rest ih =>
    by_cases hp : p.1 = o
    · simp [lookupCount, hp] at h
      simp [incrCount, lookupCount, hp, h]
    · simp [lookupCount, hp] at h
      simp [incrCount, lookupCount, hp, ih h]

theorem lookupCount_incrCount_ne {vs : VoteMap} {o o' : String} (hne : o' ≠ o) :
    lookupCount (incrCount vs o) o' = lookupCount vs o' := by
  have hne' : o ≠ o' := Ne.symm hne
  induction vs with
  | nil => simp [incrCount]
  | cons p rest ih =>
    by_cases hp : p.1 = o
    · simp [incrCount, lookupCount, hp, hne']
    · simp only [incrCount, if_neg hp]
      by_cases hpo : p.1 = o'
      · simp [lookupCount, hpo]
      · simp [lookupCount, hpo, ih]

theorem lookupCount_setCount_self (vs : VoteMap) (o : String) (n : Int) :
    lookupCount (setCount vs o n) o = some n := by
  induction vs with
  | nil => simp [setCount, lookupCount]
  | cons p rest ih =>
    by_cases hp : p.1 = o
    · simp [setCount, lookupCount, hp]
    · simp [setCount, lookupCount, hp, ih]

theorem lookupCount_setCount_ne {vs : VoteMap} {o o' : String} (n : Int) (hne : o' ≠ o) :
    lookupCount (setCount vs o n) o' = lookupCount vs o' := by
  have hne' : o ≠ o' := Ne.symm hne
  induction vs with
  | nil => simp [setCount, lookupCount, hne']
  | cons p rest ih =>
    by_cases hp : p.1 = o
    · simp [setCount, lookupCount, hp, hne']
    · simp only [setCount, if_neg hp]
      by_cases hpo : p.1 = o'
      · simp [lookupCount, hpo]
      · simp [lookupCount, hpo, ih]

theorem mem_of_lookupCount {vs : VoteMap} {o : String} {c : Int}
    (h : lookupCount vs o = some c) : (o, c) ∈ vs := by
  induction vs with
  | nil => simp [lookupCount] at h
  | cons p rest ih =>
    obtain ⟨p1, p2⟩ := p
    by_cases hp : p1 = o
    · simp only [lookupCount, if_pos hp] at h
      injection h with h2
      subst hp
      subst h2
      exact List.mem_cons_self _ _
    · simp only [lookupCount, if_neg hp] at h
      exact List.mem_cons_of_mem _ (ih h)

theorem mkVotes_foldl_lookup (options : List String) (vs : VoteMap) (o : String) :
    lookupCount (options.foldl (fun a b => setCount a b 0) vs) o =
      if o ∈ options then some 0 else lookupCount vs o := by
  induction options generalizing vs with
  | nil => simp
  | cons b rest ih =>
    simp only [List.foldl_cons, ih]
    by_cases hr : o ∈ rest
    · simp [hr, List.mem_cons]
    · by_cases hb : o = b
      · simp [hr, hb, lookupCount_setCount_self]
      · simp [hr, hb, lookupCount_setCount_ne _ hb]

theorem mkVotes_lookup (options : List String) (o : String) :
    lookupCount (mkVotes options) o = if o ∈ options then some 0 else none := by
  simpa [mkVotes, lookupCount] using mkVotes_foldl_lookup options [] o

theorem setCount_zero_all_zero {vs : VoteMap} {o : String}
    (h : ∀ p ∈ vs, p.2 = (0 : Int)) :
    ∀ p ∈ setCount vs o 0, p.2 = (0 : Int) := by
  induction vs with
  | nil => simp [setCount]
  | cons q rest ih =>
    by_cases hq : q.1 = o
    · simp only [setCount, hq, if_pos rfl]
      intro p hp
      rcases List.mem_cons.mp hp with hp | hp
      · simp [hp]
      · exact h p (List.mem_cons_of_mem _ hp)
    · simp only [setCount, hq, if_neg hq]
      intro p hp
      rcases List.mem_cons.mp hp with hp | hp
      · exact h p (hp ▸ List.mem_cons_self _ _)
      · exact ih (fun r hr => h r (List.mem_cons_of_mem _ hr)) p hp

theorem mkVotes_all_zero (options : List String) :
    ∀ p ∈ mkVotes options, p.2 = (0 : Int) := by
  suffices h : ∀ (os : List String) (vs : VoteMap), (∀ p ∈ vs, p.2 = (0 : Int)) →
      ∀ p ∈ os.foldl (fun a b => setCount a b 0) vs, p.2 = (0 : Int) by
    exact h options [] (by simp)
  intro os
  induction os with
  | nil => intro vs h p hp; exact h p hp
  | cons b rest ih =>
    intro vs h p hp
    exact ih (setCount vs b 0) (setCount_zero_all_zero h) p hp

/-! ### Lemmas on the maximum-entry fold of `CheckWinner` -/

theorem foldl_maxStep_init_le (l : VoteMap) (a : String × Int) :
    a.2 ≤ (l.foldl maxStep a).2 := by
  induction l generalizing a with
  | nil => simp
  | cons p rest ih =>
    refine le_trans ?_ (ih (maxStep a p))
    by_cases h : p.2 > a.2 <;> simp [maxStep, h] <;> omega

theorem foldl_maxStep_ge (l : VoteMap) (a : String × Int) :
    ∀ p ∈ l, p.2 ≤ (l.foldl maxStep a).2 := by
  induction l generalizing a with
  | nil => simp
  | cons q rest ih =>
    intro p hp
    rcases List.mem_cons.mp hp with hp | hp
    · subst hp
      refine le_trans ?_ (foldl_maxStep_init_le rest (maxStep a p))
      by_cases h : p.2 > a.2 <;> simp [maxStep, h] <;> omega
    · exact ih (maxStep a q) p hp

theorem foldl_maxStep_mem_or (l : VoteMap) (a : String × Int) :
    l.foldl maxStep a = a ∨ l.foldl maxStep a ∈ l := by
  induction l generalizing a with
  | nil => simp
  | cons q rest ih =>
    rw [List.foldl_cons]
    by_cases hq : q.2 > a.2
    · have hs : maxStep a q = q := by simp [maxStep, hq]
      rw [hs]
      rcases ih q with h | h
      · right; rw [h]; exact List.mem_cons_self _ _
      · right; exact List.mem_cons_of_mem _ h
    · have hs : maxStep a q = a := by simp [maxStep, hq]
      rw [hs]
      rcases ih a with h | h
      · left; exact h
      · right; exact List.mem_cons_of_mem _ h

theorem foldl_maxStep_stay {l : VoteMap} {a : String × Int}
    (h : ∀ p ∈ l, p.2 ≤ a.2) : l.foldl maxStep a = a := by
  induction l with
  | nil => simp
  | cons q rest ih =>
    have hq : ¬ q.2 > a.2 := by
      have := h q (List.mem_cons_self _ _)
      omega
    simp only [List.foldl_cons, maxStep, if_neg hq]
    exact ih (fun p hp => h p (List.mem_cons_of_mem _ hp))

theorem foldl_maxStep_unique {l : VoteMap} {w : String} {v : Int} {a : String × Int}
    (hmem : (w, v) ∈ l) (ha : a.2 < v)
    (hlt : ∀ p ∈ l, p ≠ (w, v) → p.2 < v) :
    l.foldl maxStep a = (w, v) := by
  induction l generalizing a with
  | nil => simp at hmem
  | cons q rest ih =>
    rw [List.foldl_cons]
    by_cases hqq : q = (w, v)
    · have hv : q.2 = v := by rw [hqq]
      have hgt : q.2 > a.2 := by omega
      have hs : maxStep a q = q := by simp [maxStep, hgt]
      rw [hs]
      have hstay : ∀ p ∈ rest, p.2 ≤ q.2 := by
        intro p hp
        by_cases hpw : p = (w, v)
        · simp [hpw, hqq]
        · have := hlt p (List.mem_cons_of_mem _ hp) hpw
          omega
      rw [foldl_maxStep_stay hstay, hqq]
    · have hq2 : q.2 < v := hlt q (List.mem_cons_self _ _) hqq
      have hmem' : (w, v) ∈ rest := by
        rcases List.mem_cons.mp hmem with h | h
        · exact absurd h.symm hqq
        · exact h
      have hstep : (maxStep a q).2 < v := by
        by_cases h : q.2 > a.2
        · simp only [maxStep, if_pos h]; omega
        · simp only [maxStep, if_neg h]; omega
      exact ih hmem' hstep (fun p hp hne => hlt p (List.mem_cons_of_mem _ hp) hne)

/-! ### List update lemmas -/

theorem getElem?_set_self {α : Type} {l : List α} {i : Nat} {a : α} (b : α)
    (h : l[i]? = some a) : (l.set i b)[i]? = some b := by
  induction l generalizing i with
  | nil => simp at h
  | cons x rest ih =>
    cases i with
    | zero => simp [List.set]
    | succ n =>
      simp only [List.getElem?_cons_succ] at h
      simpa [List.set] using ih h

theorem mem_of_mem_set {α : Type} {l : List α} {i : Nat} {b x : α}
    (h : x ∈ l.set i b) : x ∈ l ∨ x = b := by
  induction l generalizing i with
  | nil => simp [List.set] at h
  | cons y rest ih =>
    cases i with
    | zero =>
      rcases List.mem_cons.mp h with h | h
      · right; exact h
      · left; exact List.mem_cons_of_mem _ h
    | succ n =>
      rcases List.mem_cons.mp h with h | h
      · left; exact h ▸ List.mem_cons_self _ _
      · rcases ih h with h | h
        · left; exact List.mem_cons_of_mem _ h
        · right; exact h

theorem countP_set_eq {α : Type} (q : α → Bool) {l : List α} {i : Nat} {a : α} (b : α)
    (h : l[i]? = some a) :
    (l.set i b).countP q + (if q a then 1 else 0) =
      l.countP q + (if q b then 1 else 0) := by
  induction l generalizing i with
  | nil => simp at h
  | cons x rest ih =>
    cases i with
    | zero =>
      simp only [List.getElem?_cons_zero, Option.some.injEq] at h
      subst h
      simp only [List.set, List.countP_cons]
      omega
    | succ n =>
      simp only [List.getElem?_cons_succ] at h
      have := ih h
      simp only [List.set, List.countP_cons]
      omega

/-! ### Lemmas on `GetCurrentDecision` -/

theorem lastVotingIdx_some {ds : List Decision} {i : Nat} {d : Decision}
    (h : lastVotingIdx ds = some (i, d)) :
    ds[i]? = some d ∧ d.state = .voting := by
  induction ds generalizing i with
  | nil => simp [lastVotingIdx] at h
  | cons x rest ih =>
    simp only [lastVotingIdx] at h
    cases hrest : lastVotingIdx rest with
    | some e =>
      obtain ⟨j, y⟩ := e
      rw [hrest] at h
      simp only [Option.some.injEq, Prod.mk.injEq] at h
      obtain ⟨hi, hd⟩ := h
      subst hd
      obtain ⟨h1, h2⟩ := ih hrest
      subst hi
      simpa [h2] using h1
    | none =>
      rw [hrest] at h
      by_cases hx : x.state == DecisionState.voting
      · simp only [hx, if_pos] at h
        simp only [Option.some.injEq, Prod.mk.injEq] at h
        obtain ⟨hi, hd⟩ := h
        subst hd
        subst hi
        exact ⟨by simp, by simpa using hx⟩
      · simp [hx] at h

theorem lastVotingIdx_none {ds : List Decision}
    (h : lastVotingIdx ds = none) : ∀ d ∈ ds, d.state ≠ .voting := by
  induction ds with
  | nil => simp
  | cons x rest ih =>
    simp only [lastVotingIdx] at h
    cases hrest : lastVotingIdx rest with
    | some e =>
      obtain ⟨j, y⟩ := e
      rw [hrest] at h
      simp at h
    | none =>
      rw [hrest] at h
      by_cases hx : x.state == DecisionState.voting
      · simp [hx] at h
      · intro d hd
        rcases List.mem_cons.mp hd with hd | hd
        · subst hd; simpa using hx
        · exact ih hrest d hd

theorem countVoting_eq_zero_of_none {ds : List Decision}
    (h : lastVotingIdx ds = none) : countVoting ds = 0 := by
  rw [countVoting, List.countP_eq_zero]
  intro d hd
  simpa using lastVotingIdx_none h d hd

/-! ### `AddVote` dissection -/

theorem addVote_true_elim {d : Decision} {opt : String} {d1 : Decision}
    (h : d.addVote opt = (d1, true)) :
    d.state = .voting ∧ (lookupCount d.votes opt).isSome = true ∧
      d1 = { d with votes := incrCount d.votes opt } := by
  by_cases hs : d.state = .voting
  · cases hl : lookupCount d.votes opt with
    | none => simp [Decision.addVote, hs, hl] at h
    | some c =>
      have hred : d.addVote opt = ({ d with votes := incrCount d.votes opt }, true) := by
        simp [Decision.addVote, hs, hl]
      rw [hred] at h
      injection h with h1 h2
      exact ⟨hs, by simp [hl], h1.symm⟩
  · simp [Decision.addVote, hs] at h

theorem keys_nodup_unique {l : VoteMap} (hnd : (l.map Prod.fst).Nodup)
    {w : String} {v : Int} {p : String × Int}
    (hm : (w, v) ∈ l) (hp : p ∈ l) (hk : p.1 = w) : p = (w, v) := by
  induction l with
  | nil => simp at hm
  | cons a rest ih =>
    rw [List.map_cons, List.nodup_cons] at hnd
    rcases List.mem_cons.mp hm with hm | hm <;> rcases List.mem_cons.mp hp with hp | hp
    · rw [hp, ← hm]
    · exfalso
      apply hnd.1
      have ha1 : a.1 = w := by rw [← hm]
      exact List.mem_map.mpr ⟨p, hp, by rw [hk, ha1]⟩
    · exfalso
      apply hnd.1
      have ha1 : a.1 = w := by rw [← hp, hk]
      exact List.mem_map.mpr ⟨(w, v), hm, ha1.symm⟩
    · exact ih hnd.2 hm hp

theorem checkWinner_eq (d : Decision) (k : Int) (h : ¬ d.votes.length = 0) :
    d.checkWinner k =
      (if d.votes.any (fun p => p.1 != (d.votes.foldl maxStep ("", 0)).1 &&
          decide ((d.votes.foldl maxStep ("", 0)).2 - p.2 < k)) then none
       else some (d.votes.foldl maxStep ("", 0)).1) := by
  simp only [Decision.checkWinner, if_neg h]

theorem winnerAux_iff {l : VoteMap} {k : Int} (w : String)
    (hnd : (l.map Prod.fst).Nodup) (hnn : ∀ p ∈ l, 0 ≤ p.2)
    (hlen : 2 ≤ l.length) (hk : 1 ≤ k) :
    ((if l.any (fun p => p.1 != (l.foldl maxStep ("", 0)).1 &&
        decide ((l.foldl maxStep ("", 0)).2 - p.2 < k)) then none
      else some (l.foldl maxStep ("", 0)).1) = some w) ↔
    (∃ v : Int, (w, v) ∈ l ∧ (∀ p ∈ l, p.2 ≤ v) ∧
      ∀ p ∈ l, p.1 ≠ w → k ≤ v - p.2) := by
  have hB0 : (0 : Int) ≤ (l.foldl maxStep ("", 0)).2 :=
    foldl_maxStep_init_le l ("", 0)
  have hge : ∀ p ∈ l, p.2 ≤ (l.foldl maxStep ("", 0)).2 :=
    foldl_maxStep_ge l ("", 0)
  constructor
  · intro hsome
    by_cases hany : l.any (fun p => p.1 != (l.foldl maxStep ("", 0)).1 &&
        decide ((l.foldl maxStep ("", 0)).2 - p.2 < k)) = true
    · rw [if_pos hany] at hsome
      exact absurd hsome (by simp)
    · rw [if_neg hany] at hsome
      injection hsome with hw
      have hmargins : ∀ p ∈ l, p.1 = w ∨ k ≤ (l.foldl maxStep ("", 0)).2 - p.2 := by
        intro p hp
        rw [List.any_eq_true] at hany
        push_neg at hany
        have := hany p hp
        simp only [Bool.and_eq_true, bne_iff_ne, ne_eq, decide_eq_true_eq, not_and,
          not_lt] at this
        by_cases hpw : p.1 = w
        · exact Or.inl hpw
        · exact Or.inr (this (by rw [hw]; exact hpw))
      by_cases hpos : 0 < (l.foldl maxStep ("", 0)).2
      · have hmem : l.foldl maxStep ("", 0) ∈ l := by
          rcases foldl_maxStep_mem_or l ("", 0) with h | h
          · rw [h] at hpos
            exact absurd hpos (by simp)
          · exact h
        refine ⟨(l.foldl maxStep ("", 0)).2, ?_, hge, ?_⟩
        · have : (w, (l.foldl maxStep ("", 0)).2) = l.foldl maxStep ("", 0) := by
            rw [← hw]
          rw [this]
          exact hmem
        · intro p hp hpw
          rcases hmargins p hp with h | h
          · exact absurd h hpw
          · exact h
      · have hzero : (l.foldl maxStep ("", 0)).2 = 0 := by omega
        have hallw : ∀ p ∈ l, p.1 = w := by
          intro p hp
          rcases hmargins p hp with h | h
          · exact h
          · have h1 := hnn p hp
            have h2 := hge p hp
            omega
        exfalso
        match l, hlen, hnd, hallw with
        | a :: b :: t, _, hnd, hallw =>
          rw [List.map_cons, List.map_cons, List.nodup_cons] at hnd
          apply hnd.1
          rw [hallw a (List.mem_cons_self _ _),
            ← hallw b (List.mem_cons_of_mem _ (List.mem_cons_self _ _))]
          exact List.mem_cons_self _ _
  · rintro ⟨v, hmem, hmax, hmar⟩
    have hother : ∃ p0 ∈ l, p0.1 ≠ w := by
      match l, hlen, hnd, hmem, hmax, hmar with
      | a :: b :: t, _, hnd, hmem, hmax, hmar =>
        rw [List.map_cons, List.map_cons, List.nodup_cons] at hnd
        have hab : a.1 ≠ b.1 := by
          intro hcon
          exact hnd.1 (hcon ▸ List.mem_cons_self _ _)
        by_cases ha : a.1 = w
        · exact ⟨b, List.mem_cons_of_mem _ (List.mem_cons_self _ _),
            fun hb => hab (by rw [ha, hb])⟩
        · exact ⟨a, List.mem_cons_self _ _, ha⟩
    have hvpos : 0 < v := by
      obtain ⟨p0, hp0, hp0w⟩ := hother
      have h1 := hmar p0 hp0 hp0w
      have h2 := hnn p0 hp0
      omega
    have hlt : ∀ p ∈ l, p ≠ (w, v) → p.2 < v := by
      intro p hp hpne
      by_cases hpw : p.1 = w
      · exact absurd (keys_nodup_unique hnd hmem hp hpw) hpne
      · have := hmar p hp hpw
        omega
    have hBeq : l.foldl maxStep ("", 0) = (w, v) :=
      foldl_maxStep_unique hmem (by simpa using hvpos) hlt
    have hany : (l.any (fun p => p.1 != (l.foldl maxStep ("", 0)).1 &&
        decide ((l.foldl maxStep ("", 0)).2 - p.2 < k))) = false := by
      rw [List.any_eq_false]
      intro p hp
      simp only [hBeq, Bool.and_eq_true, bne_iff_ne, ne_eq, decide_eq_true_eq, not_and,
        not_lt]
      intro hpw
      exact hmar p hp hpw
    rw [if_neg (by rw [hany]; simp), hBeq]

/-! ### Dissection of the service operations -/

theorem startDecision_ok_elim {p : Project} {decisionID desc : String}
    {options : List String} {now : Int} {p' : Project} {d : Decision}
    (h : startDecision p decisionID desc options now = .ok (p', d)) :
    p.canAcceptVotes = true ∧ lastVotingIdx p.decisions = none ∧
    d = newDecision decisionID p.id desc (p.currentTurn + 1) options now ∧
    p' = { p with decisions := p.decisions ++ [d],
                  currentTurn := p.currentTurn + 1, updatedAt := now } := by
  by_cases hca : p.canAcceptVotes = true
  · cases hidx : lastVotingIdx p.decisions with
    | some e =>
      simp [startDecision, hca, Project.getCurrentDecision, hidx] at h
    | none =>
      have hred : startDecision p decisionID desc options now =
          .ok ({ p with
                   decisions := p.decisions ++
                     [newDecision decisionID p.id desc (p.currentTurn + 1) options now],
                   currentTurn := p.currentTurn + 1, updatedAt := now },
               newDecision decisionID p.id desc (p.currentTurn + 1) options now) := by
        simp [startDecision, hca, Project.getCurrentDecision, hidx, newDecision]
      rw [hred] at h
      injection h with h1
      injection h1 with h2 h3
      exact ⟨hca, rfl, h3.symm, by rw [← h2, ← h3]⟩
  · simp [startDecision, hca] at h

theorem castVote_ok_elim {p : Project} {a b c : String} {now : Int} {p' : Project}
    (h : castVote p a b c now = .ok p') :
    p.canAcceptVotes = true ∧
    ∃ i d d1, lastVotingIdx p.decisions = some (i, d) ∧ d.id = a ∧
      d.addVote c = (d1, true) ∧
      ((d1.checkWinner p.k = none ∧
        p' = { p with decisions := p.decisions.set i d1, updatedAt := now }) ∨
       (∃ w, d1.checkWinner p.k = some w ∧ p' = winUpdate p i d1 w now)) := by
  by_cases hca : p.canAcceptVotes = true
  · cases hidx : lastVotingIdx p.decisions with
    | none => simp [castVote, hca, hidx] at h
    | some e =>
      obtain ⟨i, d⟩ := e
      have hst : d.state = DecisionState.voting := (lastVotingIdx_some hidx).2
      by_cases hid : d.id = a
      · cases hadd : d.addVote c with
        | mk d1 ok =>
          cases ok with
          | false => simp [castVote, hca, hidx, hid, hst, hadd] at h
          | true =>
            cases hwin : d1.checkWinner p.k with
            | none =>
              refine ⟨hca, i, d, d1, rfl, hid, hadd, Or.inl ⟨hwin, ?_⟩⟩
              have hred : castVote p a b c now =
                  .ok { p with decisions := p.decisions.set i d1, updatedAt := now } := by
                simp [castVote, hca, hidx, hid, hst, hadd, hwin]
              rw [hred] at h
              injection h with h1
              exact h1.symm
            | some w =>
              refine ⟨hca, i, d, d1, rfl, hid, hadd, Or.inr ⟨w, hwin, ?_⟩⟩
              have hred : castVote p a b c now = .ok (winUpdate p i d1 w now) := by
                simp [castVote, hca, hidx, hid, hst, hadd, hwin, winUpdate]
              rw [hred] at h
              injection h with h1
              exact h1.symm
      · simp [castVote, hca, hidx, hid] at h
  · simp [castVote, hca] at h

theorem endProject_ok_elim {p : Project} {now : Int} {p' : Project}
    (h : endProject p now = .ok p') :
    p.isComplete = false ∧
    ((lastVotingIdx p.decisions = none ∧
      p' = { p with state := .completed, completedAt := some now, updatedAt := now }) ∨
     (∃ i d, lastVotingIdx p.decisions = some (i, d) ∧
      p' = { p with state := .completed, completedAt := some now, updatedAt := now,
                    decisions := p.decisions.set i { d with state := .cancelled } })) := by
  by_cases hc : p.isComplete = true
  · simp [endProject, hc] at h
  · have hc' : p.isComplete = false := by simpa using hc
    cases hidx : lastVotingIdx p.decisions with
    | none =>
      refine ⟨hc', Or.inl ⟨rfl, ?_⟩⟩
      have hred : endProject p now =
          .ok { p with state := .completed, completedAt := some now, updatedAt := now } := by
        simp [endProject, hc', hidx]
      rw [hred] at h
      injection h with h1
      exact h1.symm
    | some e =>
      obtain ⟨i, d⟩ := e
      refine ⟨hc', Or.inr ⟨i, d, rfl, ?_⟩⟩
      have hred : endProject p now =
          .ok { p with state := .completed, completedAt := some now, updatedAt := now,
                       decisions := p.decisions.set i { d with state := .cancelled } } := by
        simp [endProject, hc', hidx]
      rw [hred] at h
      injection h with h1
      exact h1.symm

theorem mem_of_getElem?_eq {α : Type} {l : List α} {i : Nat} {a : α}
    (h : l[i]? = some a) : a ∈ l := by
  induction l generalizing i with
  | nil => simp at h
  | cons x t ih =>
    cases i with
    | zero =>
      simp only [List.getElem?_cons_zero, Option.some.injEq] at h
      exact h ▸ List.mem_cons_self _ _
    | succ n =>
      simp only [List.getElem?_cons_succ] at h
      exact List.mem_cons_of_mem _ (ih h)

/-! ### The reachability invariant -/

theorem reachable_wf {p : Project} (h : Reachable p) : WF p := by
  induction h with
  | create id name k maxTurns now =>
    refine ⟨?_, ?_, ?_⟩ <;> simp [newProject, countVoting, completedCount]
  | @start p p' d hR decisionID description options now hs ih =>
    obtain ⟨hca, hidx, hd, hp'⟩ := startDecision_ok_elim hs
    obtain ⟨ih1, ih2, ih3⟩ := ih
    have hzero := countVoting_eq_zero_of_none hidx
    subst hp'
    subst hd
    refine ⟨?_, ?_, ?_⟩
    · show countVoting (p.decisions ++ [_]) ≤ 1
      rw [countVoting, List.countP_append]
      rw [countVoting] at hzero
      simp [hzero, newDecision]
    · show p.metrics.totalDecisions = (completedCount (p.decisions ++ [_]) : Int)
      rw [completedCount, List.countP_append]
      rw [completedCount] at ih2
      simp [newDecision, ih2, completedCount]
    · intro x hx
      rcases List.mem_append.mp hx with hx | hx
      · exact ih3 x hx
      · rcases List.mem_cons.mp hx with hx | hx
        · subst hx
          simp [newDecision]
        · simp at hx
  | @vote p p' hR decisionID agentID option now hv ih =>
    obtain ⟨hca, i, d, d1, hidx, hid, hadd, hbr⟩ := castVote_ok_elim hv
    obtain ⟨ih1, ih2, ih3⟩ := ih
    obtain ⟨hget, hst⟩ := lastVotingIdx_some hidx
    obtain ⟨hs', hl', hd1⟩ := addVote_true_elim hadd
    have hdmem : d ∈ p.decisions := mem_of_getElem?_eq hget
    have hdca : d.completedAt = none := by
      have hiff := ih3 d hdmem
      rw [hst] at hiff
      simp only [reduceCtorEq, iff_false] at hiff
      exact Option.not_isSome_iff_eq_none.mp (by simpa using hiff)
    have hd1st : d1.state = DecisionState.voting := by rw [hd1, hst]
    have hd1ca : d1.completedAt = none := by rw [hd1]; exact hdca
    rcases hbr with ⟨hwin, hp'⟩ | ⟨w, hwin, hp'⟩
    · subst hp'
      have hcv := countP_set_eq (fun x => x.state == DecisionState.voting) d1 hget
      have hcc := countP_set_eq (fun x => x.completedAt.isSome) d1 hget
      rw [if_pos (by simp [hst]), if_pos (by simp [hd1st])] at hcv
      rw [if_neg (by simp [hdca]), if_neg (by simp [hd1ca])] at hcc
      refine ⟨?_, ?_, ?_⟩
      · show countVoting (p.decisions.set i d1) ≤ 1
        rw [countVoting] at ih1 ⊢
        omega
      · show p.metrics.totalDecisions = (completedCount (p.decisions.set i d1) : Int)
        rw [completedCount] at ih2 ⊢
        omega
      · intro x hx
        rcases mem_of_mem_set hx with hx | hx
        · exact ih3 x hx
        · subst hx
          rw [hd1st, hd1ca]
          simp
    · subst hp'
      rw [winUpdate]
      have hcv := countP_set_eq (fun x => x.state == DecisionState.voting)
        ({ d1 with state := .completed, winner := some w, completedAt := some now }) hget
      have hcc := countP_set_eq (fun x => x.completedAt.isSome)
        ({ d1 with state := .completed, winner := some w, completedAt := some now }) hget
      rw [if_pos (by simp [hst]), if_neg (by simp)] at hcv
      rw [if_neg (by simp [hdca]), if_pos (by simp)] at hcc
      refine ⟨?_, ?_, ?_⟩
      · rw [countVoting] at ih1 ⊢
        simp only []
        omega
      · rw [completedCount] at ih2 ⊢
        simp only []
        push_cast
        push_cast at ih2
        omega
      · intro x hx
        rcases mem_of_mem_set hx with hx | hx
        · exact ih3 x hx
        · subst hx
          simp
  | @finish p p' hR now he ih =>
    obtain ⟨hc, hbr⟩ := endProject_ok_elim he
    obtain ⟨ih1, ih2, ih3⟩ := ih
    rcases hbr with ⟨hidx, hp'⟩ | ⟨i, d, hidx, hp'⟩
    · subst hp'
      exact ⟨ih1, ih2, ih3⟩
    · obtain ⟨hget, hst⟩ := lastVotingIdx_some hidx
      have hdmem : d ∈ p.decisions := mem_of_getElem?_eq hget
      have hdca : d.completedAt = none := by
        have hiff := ih3 d hdmem
        rw [hst] at hiff
        simp only [reduceCtorEq, iff_false] at hiff
        exact Option.not_isSome_iff_eq_none.mp (by simpa using hiff)
      subst hp'
      have hcv := countP_set_eq (fun x => x.state == DecisionState.voting)
        ({ d with state := DecisionState.cancelled }) hget
      have hcc := countP_set_eq (fun x => x.completedAt.isSome)
        ({ d with state := DecisionState.cancelled }) hget
      rw [if_pos (by simp [hst]), if_neg (by simp)] at hcv
      rw [if_neg (by simp [hdca])] at hcc
      refine ⟨?_, ?_, ?_⟩
      · show countVoting (p.decisions.set i _) ≤ 1
        rw [countVoting] at ih1 ⊢
        omega
      · show p.metrics.totalDecisions = (completedCount (p.decisions.set i _) : Int)
        rw [completedCount] at ih2 ⊢
        omega
      · intro x hx
        rcases mem_of_mem_set hx with hx | hx
        · exact ih3 x hx
        · subst hx
          simp [hdca]

theorem consensusTimes_spec {ds : List Decision}
    (h : ∀ x ∈ ds, x.completedAt.isSome = true ↔ x.state = DecisionState.completed) :
    consensusTimes ds = completedDurations ds ∧
    (consensusTimes ds).length = completedCount ds := by
  induction ds with
  | nil => simp [consensusTimes, completedDurations, completedCount]
  | cons x t ih =>
    have hx := h x (List.mem_cons_self _ _)
    have ht := ih (fun y hy => h y (List.mem_cons_of_mem _ hy))
    by_cases hs : x.state = DecisionState.completed
    · have hsome : x.completedAt.isSome = true := hx.mpr hs
      cases hca : x.completedAt with
      | none => rw [hca] at hsome; simp at hsome
      | some c =>
        constructor
        · simp [consensusTimes, completedDurations, List.filter_cons, hs, hca, ht.1,
            consensusTimes, completedDurations] at ht ⊢
          exact ht.1
        · simp [consensusTimes, completedCount, List.filter_cons, List.countP_cons, hs, hca]
          simpa [consensusTimes, completedCount] using ht.2
    · have hnone : x.completedAt = none := by
        cases hca : x.completedAt with
        | none => rfl
        | some c => exact absurd (hx.mp (by simp [hca])) hs
      constructor
      · simp [consensusTimes, completedDurations, List.filter_cons, hs, hnone] at ht ⊢
        exact ht.1
      · simp [consensusTimes, completedCount, List.filter_cons, List.countP_cons, hs, hnone]
        simpa [consensusTimes, completedCount] using ht.2

/-! ### Claim C3 -/

/-- C3: every session reachable by a sequence of service operations
(`CreateProject`, `StartDecision`, `CastVote`, `EndProject`) has at most one
decision in the Voting state, and `StartDecision` fails whenever a Voting
decision already exists.  (`CastVote` completing the Voting decision on a win
and `EndProject` cancelling it are the `vote` and `finish` cases of the
reachability induction.) -/
theorem single_voting_invariant :
    (∀ p : Project, Reachable p → countVoting p.decisions ≤ 1) ∧
    (∀ (p : Project) (decisionID desc : String) (options : List String) (now : Int),
      p.getCurrentDecision ≠ none →
      ∃ e, startDecision p decisionID desc options now = .error e) := by
  constructor
  · intro p h
    exact (reachable_wf h).1
  · intro p decisionID desc options now hne
    by_cases hca : p.canAcceptVotes = true
    · refine ⟨.activeDecisionExists, ?_⟩
      have hsome : (p.getCurrentDecision).isSome = true := by
        cases h : p.getCurrentDecision with
        | none => exact absurd h hne
        | some d => simp
      simp [startDecision, hca, hsome]
    · refine ⟨.projectNotActive, ?_⟩
      have hca' : p.canAcceptVotes = false := by simpa using hca
      simp [startDecision, hca']

/-- Witness for C3: the invariant at a freshly created session, and the
refusal of a second decision on `projWit1`, whose decision is still open. -/
theorem single_voting_invariant_witness :
    countVoting (newProject "s" "n" 2 10 0).decisions ≤ 1 ∧
    ∃ e, startDecision projWit1 "d2" "q" ["A", "B"] 0 = .error e :=
  ⟨single_voting_invariant.1 _ (Reachable.create "s" "n" 2 10 0),
   single_voting_invariant.2 projWit1 "d2" "q" ["A", "B"] 0 (by decide)⟩

/-! ### Claim C9 -/

/-- C9: `GetCurrentDecision` only ever returns decisions in the Voting state,
so the voting-closed state checks in `Service.CastVote` and
`VotingService.CastVote` can never fire: `castVote` never returns the
`ErrVotingClosed` error. -/
theorem votingClosed_unreachable :
    (∀ (p : Project) (d : Decision), p.getCurrentDecision = some d →
      d.state = .voting) ∧
    (∀ (p : Project) (decisionID agentID opt : String) (now : Int),
      castVote p decisionID agentID opt now ≠ .error .votingClosed) := by
  constructor
  · intro p d h
    rw [Project.getCurrentDecision] at h
    cases hidx : lastVotingIdx p.decisions with
    | none => rw [hidx] at h; simp at h
    | some e =>
      obtain ⟨i, d'⟩ := e
      rw [hidx] at h
      simp only [Option.map_some'] at h
      injection h with h1
      rw [← h1]
      exact (lastVotingIdx_some hidx).2
  · intro p a b c now hcon
    by_cases hca : p.canAcceptVotes = true
    · cases hidx : lastVotingIdx p.decisions with
      | none => simp [castVote, hca, hidx] at hcon
      | some e =>
        obtain ⟨i, d⟩ := e
        have hst : d.state = DecisionState.voting := (lastVotingIdx_some hidx).2
        by_cases hid : d.id = a
        · cases hadd : d.addVote c with
          | mk d1 ok =>
            cases ok with
            | false => simp [castVote, hca, hidx, hid, hst, hadd] at hcon
            | true =>
              cases hwin : d1.checkWinner p.k with
              | none => simp [castVote, hca, hidx, hid, hst, hadd, hwin] at hcon
              | some w => simp [castVote, hca, hidx, hid, hst, hadd, hwin] at hcon
        · simp [castVote, hca, hidx, hid] at hcon
    · have hca' : p.canAcceptVotes = false := by simpa using hca
      simp [castVote, hca'] at hcon

/-- Witness for C9: `projWit1`'s current decision is `decWit` and its state
is Voting. -/
theorem votingClosed_unreachable_witness :
    decWit.state = DecisionState.voting :=
  votingClosed_unreachable.1 projWit1 decWit (by decide)

/-! ### Claim C4 -/

/-- C4: when a successful `CastVote` on a reachable session finds a winner
(the freshly voted decision `d1` satisfies `CheckWinner(K) = some w`), the
decision ends Completed with its winner and completion timestamp set,
`TotalDecisions` grows by exactly one, `TotalVotes` grows by exactly the sum
of the decision's final vote counts, and `AverageConsensusTime` equals the
mean — `time.Duration` integer division, i.e. truncated at nanosecond
resolution — of `CompletedAt - VotingStarted` over the session's Completed
decisions. -/
theorem castVote_completion_metrics (p p' : Project) (hR : Reachable p)
    (decisionID agentID opt : String) (now : Int)
    (i : Nat) (d d1 : Decision) (w : String)
    (hidx : lastVotingIdx p.decisions = some (i, d))
    (hadd : d.addVote opt = (d1, true))
    (hwin : d1.checkWinner p.k = some w)
    (hok : castVote p decisionID agentID opt now = .ok p') :
    p'.decisions[i]? =
      some { d1 with state := .completed, winner := some w, completedAt := some now } ∧
    p'.metrics.totalDecisions = p.metrics.totalDecisions + 1 ∧
    p'.metrics.totalVotes = p.metrics.totalVotes + d1.sumVotes ∧
    p'.metrics.averageConsensusTime = meanInt (consensusTimes p'.decisions) := by
  obtain ⟨ih1, ih2, ih3⟩ := reachable_wf hR
  obtain ⟨hget, hst⟩ := lastVotingIdx_some hidx
  have hdmem : d ∈ p.decisions := mem_of_getElem?_eq hget
  have hdca : d.completedAt = none := by
    have hiff := ih3 d hdmem
    rw [hst] at hiff
    simp only [reduceCtorEq, iff_false] at hiff
    exact Option.not_isSome_iff_eq_none.mp (by simpa using hiff)
  obtain ⟨hca, i', d', d1', hidx', hid', hadd', hbr⟩ := castVote_ok_elim hok
  rw [hidx] at hidx'
  injection hidx' with he
  injection he with hei hed
  subst hei
  subst hed
  rw [hadd] at hadd'
  injection hadd' with hd1 hok1
  subst hd1
  rcases hbr with ⟨hwn, _⟩ | ⟨w', hwin', hp'⟩
  · rw [hwin] at hwn
    exact absurd hwn (by simp)
  · rw [hwin] at hwin'
    injection hwin' with hw
    subst hw
    subst hp'
    have hwfset : ∀ x ∈ p.decisions.set i
        { d1 with state := .completed, winner := some w, completedAt := some now },
        x.completedAt.isSome = true ↔ x.state = DecisionState.completed := by
      intro x hx
      rcases mem_of_mem_set hx with hx | hx
      · exact ih3 x hx
      · subst hx
        simp
    obtain ⟨hct, hlen⟩ := consensusTimes_spec hwfset
    have hcc := countP_set_eq (fun x => x.completedAt.isSome)
      ({ d1 with state := .completed, winner := some w, completedAt := some now }) hget
    rw [if_neg (by simp [hdca]), if_pos (by simp)] at hcc
    refine ⟨?_, ?_, ?_, ?_⟩
    · simp only [winUpdate]
      exact getElem?_set_self _ hget
    · simp [winUpdate]
    · simp [winUpdate, Decision.sumVotes]
    · simp only [winUpdate]
      rw [if_pos (by omega)]
      rw [meanInt, hlen, hct]
      have hccint : p.metrics.totalDecisions + 1 =
          ((completedCount (p.decisions.set i
            { d1 with state := .completed, winner := some w,
                      completedAt := some now })) : Int) := by
        rw [completedCount] at ih2 ⊢
        omega
      rw [hccint]

/-- Witness for C4: on the reachable session `projWit1` (K = 1) a vote for A
at time 7 completes the decision with winner A; the metrics become one
decision, one vote, average consensus time 7. -/
theorem castVote_completion_metrics_witness :
    projWit2.decisions[0]? = some decWitDone ∧
    projWit2.metrics.totalDecisions = projWit1.metrics.totalDecisions + 1 ∧
    projWit2.metrics.totalVotes = projWit1.metrics.totalVotes + decWitVoted.sumVotes ∧
    projWit2.metrics.averageConsensusTime = meanInt (consensusTimes projWit2.decisions) := by
  have hstart : startDecision projWit "d1" "q" ["A", "B"] 0 = .ok (projWit1, decWit) := by
    rfl
  have hR : Reachable projWit1 :=
    Reachable.start (Reachable.create "s" "n" 1 10 0) hstart
  exact castVote_completion_metrics projWit1 projWit2 hR "d1" "a1" "A" 7 0
    decWit decWitVoted "A" (by decide) (by decide) (by decide) (by rfl)

/-! ### Claim C1 -/

/-- C1 counterexample, two parts.  First, at k = 0 on a two-option decision
with all counts zero, `CheckWinner` declares winner `""`, which is not one of
the decision's options (the claim requires every declared winner to be an
option attaining the maximum).  Second, at k = 1 on a single-option decision
with zero votes, option A attains the maximum and there is no other option,
so the claim requires winner A, but `CheckWinner` returns no winner (its
leader accumulator starts at `("", 0)` and zero counts never displace it). -/
theorem checkWinner_iff_counterexample :
    (decisionAB0.checkWinner 0 = some "" ∧ "" ∉ decisionAB0.options ∧
      ∀ p ∈ decisionAB0.votes, p.1 ≠ "") ∧
    (decisionA0.checkWinner 1 = none ∧ ("A", (0 : Int)) ∈ decisionA0.votes ∧
      (∀ p ∈ decisionA0.votes, p.2 ≤ 0) ∧
      ∀ p ∈ decisionA0.votes, p.1 ≠ "A" → (1 : Int) ≤ 0 - p.2) := by
  refine ⟨⟨by decide, by decide, by decide⟩, ⟨by decide, by decide, by decide, by decide⟩⟩

/-- C1 (amended): for every decision whose vote map has at least two entries
with distinct keys (the spec's "at least 2 distinct options") and
non-negative counts, and every k ≥ 1, `CheckWinner k` returns winner `w` iff
`w` is an option attaining the maximum count `v` and every other option is at
least `k` votes behind; together with the spec §8 instances: votes
A = 3, B = 1, C = 0 give winner A at k = 2 and no winner at k = 3. -/
theorem checkWinner_iff :
    (∀ (d : Decision) (k : Int) (w : String),
      (d.votes.map Prod.fst).Nodup →
      (∀ p ∈ d.votes, 0 ≤ p.2) →
      2 ≤ d.votes.length →
      1 ≤ k →
      (d.checkWinner k = some w ↔
        ∃ v : Int, (w, v) ∈ d.votes ∧ (∀ p ∈ d.votes, p.2 ≤ v) ∧
          ∀ p ∈ d.votes, p.1 ≠ w → k ≤ v - p.2)) ∧
    decisionABC.checkWinner 2 = some "A" ∧
    decisionABC.checkWinner 3 = none := by
  refine ⟨?_, by decide, by decide⟩
  intro d k w hnd hnn hlen hk
  rw [checkWinner_eq d k (by omega)]
  exact winnerAux_iff w hnd hnn hlen hk

/-- Witness for C1 at the spec §8 decision: instantiating the equivalence at
votes A = 3, B = 1, C = 0 and k = 2 certifies winner A through the
maximum-and-margin condition. -/
theorem checkWinner_iff_witness :
    decisionABC.checkWinner 2 = some "A" := by
  have h := (checkWinner_iff.1 decisionABC 2 "A" (by decide) (by decide)
    (by decide) (by decide)).mpr
  exact h ⟨3, by decide, by decide, by decide⟩

/-! ### Claim C2 -/

/-- C2: `AddVote` fails and leaves the decision (hence every vote count)
unchanged when the decision is not in the Voting state, and likewise when the
option is not a key of the vote map; for a decision built by `NewDecision`
those keys are exactly the fixed option labels.  Otherwise it returns success
and increments exactly the chosen option's count by one. -/
theorem addVote_contract (d : Decision) (opt : String) :
    (d.state ≠ .voting → d.addVote opt = (d, false)) ∧
    (lookupCount d.votes opt = none → d.addVote opt = (d, false)) ∧
    (∀ c : Int, d.state = .voting → lookupCount d.votes opt = some c →
      (d.addVote opt).2 = true ∧
      lookupCount (d.addVote opt).1.votes opt = some (c + 1) ∧
      ∀ o', o' ≠ opt →
        lookupCount (d.addVote opt).1.votes o' = lookupCount d.votes o') ∧
    (∀ (id pid desc : String) (tn : Int) (options : List String) (now : Int) (o : String),
      lookupCount (newDecision id pid desc tn options now).votes o = none ↔ o ∉ options) := by
  refine ⟨?_, ?_, ?_, ?_⟩
  · intro hs
    simp [Decision.addVote, hs]
  · intro hl
    by_cases hs : d.state = DecisionState.voting <;> simp [Decision.addVote, hs, hl]
  · intro c hs hl
    have hred : d.addVote opt = ({ d with votes := incrCount d.votes opt }, true) := by
      simp [Decision.addVote, hs, hl]
    rw [hred]
    exact ⟨rfl, lookupCount_incrCount_self hl,
      fun o' hne => lookupCount_incrCount_ne hne⟩
  · intro id pid desc tn options now o
    rw [show (newDecision id pid desc tn options now).votes = mkVotes options from rfl,
      mkVotes_lookup]
    by_cases ho : o ∈ options <;> simp [ho]

/-- Witness for C2 at the spec §8 decision (votes A = 3, B = 1, C = 0): a
vote for A succeeds, A's count becomes 4 and B's stays 1. -/
theorem addVote_contract_witness :
    (decisionABC.addVote "A").2 = true ∧
    lookupCount (decisionABC.addVote "A").1.votes "A" = some 4 ∧
    lookupCount (decisionABC.addVote "A").1.votes "B" = some 1 := by
  obtain ⟨-, -, h3, -⟩ := addVote_contract decisionABC "A"
  obtain ⟨h1, h2, h4⟩ := h3 3 rfl rfl
  exact ⟨h1, h2, by rw [h4 "B" (by decide)]; rfl⟩

/-! ### Claim C10 -/

/-- C10: a successful `AddVote` is frame-preserving: every field of the
decision other than the vote map is unchanged, the counts of all other
options are unchanged, and the chosen option's count is incremented by
exactly one. -/
theorem addVote_frame (d : Decision) (opt : String) (d1 : Decision)
    (h : d.addVote opt = (d1, true)) :
    d1.id = d.id ∧ d1.projectID = d.projectID ∧ d1.turnNumber = d.turnNumber ∧
    d1.description = d.description ∧ d1.options = d.options ∧
    d1.state = d.state ∧ d1.winner = d.winner ∧ d1.createdAt = d.createdAt ∧
    d1.completedAt = d.completedAt ∧ d1.votingStarted = d.votingStarted ∧
    (∀ o', o' ≠ opt → lookupCount d1.votes o' = lookupCount d.votes o') ∧
    ∃ c, lookupCount d.votes opt = some c ∧
      lookupCount d1.votes opt = some (c + 1) := by
  obtain ⟨hs, hl, hd1⟩ := addVote_true_elim h
  subst hd1
  refine ⟨rfl, rfl, rfl, rfl, rfl, rfl, rfl, rfl, rfl, rfl, ?_, ?_⟩
  · intro o' hne
    exact lookupCount_incrCount_ne hne
  · cases hlc : lookupCount d.votes opt with
    | none => rw [hlc] at hl; simp at hl
    | some c => exact ⟨c, rfl, lookupCount_incrCount_self hlc⟩

/-- Witness for C10: voting A on the spec §8 decision leaves the state,
winner and C's count unchanged while A's count becomes 4. -/
theorem addVote_frame_witness :
    ({ decisionABC with votes := [("A", 4), ("B", 1), ("C", 0)] } : Decision).state
        = decisionABC.state ∧
    lookupCount ({ decisionABC with
        votes := [("A", 4), ("B", 1), ("C", 0)] } : Decision).votes "C"
      = lookupCount decisionABC.votes "C" := by
  have h := addVote_frame decisionABC "A"
    { decisionABC with votes := [("A", 4), ("B", 1), ("C", 0)] } (by decide)
  exact ⟨h.2.2.2.2.2.1, h.2.2.2.2.2.2.2.2.2.2.1 "C" (by decide)⟩

/-! ### Claim C5 -/

/-- C5 counterexample: a decision freshly created with the single option
label `""` has all counts zero and state Voting, yet `CheckWinner 1` declares
`""` the winner, contradicting the claim for that input. -/
theorem checkWinner_fresh_counterexample :
    (newDecision "d" "p" "q" 1 [""] 0).checkWinner 1 = some "" := by decide

/-- C5 (amended): a freshly created decision yields no winner from
`CheckWinner` for every k ≥ 1, provided at least one of its option labels is
non-empty (guaranteed by the spec's requirement of at least two distinct
options); the lone exception the code admits is an option set consisting only
of the empty-string label. -/
theorem checkWinner_fresh_no_winner (id pid desc : String) (tn : Int)
    (options : List String) (now k : Int)
    (hk : 1 ≤ k) (hopt : ∃ o ∈ options, o ≠ "") :
    (newDecision id pid desc tn options now).checkWinner k = none := by
  obtain ⟨o, ho, hne⟩ := hopt
  have hlook := mkVotes_lookup options o
  rw [if_pos ho] at hlook
  have hmem : (o, (0 : Int)) ∈ mkVotes options := mem_of_lookupCount hlook
  have hzero := mkVotes_all_zero options
  have hvotes : (newDecision id pid desc tn options now).votes = mkVotes options := rfl
  have hlen : ¬ (mkVotes options).length = 0 := by
    intro h0
    rw [List.length_eq_zero] at h0
    rw [h0] at hmem
    simp at hmem
  have hbest : (mkVotes options).foldl maxStep ("", 0) = ("", 0) :=
    foldl_maxStep_stay (fun p hp => le_of_eq (hzero p hp))
  have hany : ((mkVotes options).any
      (fun p => p.1 != "" && decide ((0 : Int) - p.2 < k))) = true := by
    rw [List.any_eq_true]
    refine ⟨(o, 0), hmem, ?_⟩
    simp only [Bool.and_eq_true, bne_iff_ne, ne_eq, decide_eq_true_eq]
    exact ⟨hne, by omega⟩
  simp only [Decision.checkWinner, hvotes, if_neg hlen, hbest]
  simp only [hany, if_pos]

/-- Witness for C5 at options A, B and k = 2. -/
theorem checkWinner_fresh_no_winner_witness :
    (newDecision "d" "p" "q" 1 ["A", "B"] 0).checkWinner 2 = none :=
  checkWinner_fresh_no_winner "d" "p" "q" 1 ["A", "B"] 0 2 (by decide)
    ⟨"A", by decide, by decide⟩

/-! ### Claim C6 -/

/-- C6: the claim demands that `CreateSession` reject `k ≤ 0` or
`maxTurns ≤ 0` as invalid input; the code (`Service.CreateProject` /
`NewProject`) performs no such validation — called with k = 0 and
maxTurns = 0 it succeeds and persists the session, as spec §7 itself
acknowledges of the reference implementation. -/
theorem createProject_no_validation :
    createProject "s" "n" 0 0 0 = .ok (newProject "s" "n" 0 0 0) ∧
    (newProject "s" "n" 0 0 0).k = 0 ∧
    (newProject "s" "n" 0 0 0).maxTurns = 0 ∧
    (newProject "s" "n" 0 0 0).state = .active :=
  ⟨rfl, rfl, rfl, rfl⟩

/-! ### Claim C7 -/

/-- C7 counterexample: `StartDecision` on an active session succeeds on a
single-option list and appends the decision, contradicting the claim that it
fails for fewer than two distinct non-empty labels. -/
theorem startDecision_single_option :
    startDecision (newProject "s" "n" 2 10 0) "d1" "q" ["A"] 0 =
      .ok ({ newProject "s" "n" 2 10 0 with
               decisions := [newDecision "d1" "s" "q" 1 ["A"] 0],
               currentTurn := 1, updatedAt := 0 },
           newDecision "d1" "s" "q" 1 ["A"] 0) := by
  rfl

/-- C7 (amended): `Service.StartDecision` performs no validation of the
options argument: on an active session with no open decision it succeeds for
every options list (fewer than two labels, duplicates, or empty labels
included) and appends the new decision; the only option-count check (at
least 2) lives in the CLI front-end. -/
theorem startDecision_no_option_validation (p : Project)
    (decisionID desc : String) (options : List String) (now : Int)
    (hactive : p.state = .active) (hnone : p.getCurrentDecision = none) :
    startDecision p decisionID desc options now =
      .ok ({ p with
               decisions := p.decisions ++
                 [newDecision decisionID p.id desc (p.currentTurn + 1) options now],
               currentTurn := p.currentTurn + 1, updatedAt := now },
           newDecision decisionID p.id desc (p.currentTurn + 1) options now) := by
  have hca : p.canAcceptVotes = true := by
    simp [Project.canAcceptVotes, hactive]
  simp [startDecision, hca, hnone, newDecision]

/-- Witness for C7 on the fresh project `projWit`. -/
theorem startDecision_no_option_validation_witness :
    startDecision projWit "d1" "q" ["A", "B"] 0 =
      .ok ({ projWit with
               decisions := projWit.decisions ++
                 [newDecision "d1" projWit.id "q" (projWit.currentTurn + 1) ["A", "B"] 0],
               currentTurn := projWit.currentTurn + 1, updatedAt := 0 },
           newDecision "d1" projWit.id "q" (projWit.currentTurn + 1) ["A", "B"] 0) :=
  startDecision_no_option_validation projWit "d1" "q" ["A", "B"] 0 rfl rfl

/-! ### Claim C8 -/

theorem gameScoreEx_eval : calculateGameScore gameScoreEx = some gameScoreExResult := by
  have hquality : calculateQualityScore gameScoreEx = 1 := by
    have htimes : gameScoreEx.decisions.filterMap
        (fun d => d.completedAt.map (fun c => c - d.votingStarted)) = [0, 0] := rfl
    simp only [calculateQualityScore, htimes]
    norm_num [gameScoreEx, calculateMeanDuration, secondsQ, ratSqrt, Nat.sqrt]
  have hspeed : calculateSpeedScore gameScoreEx = 0 := by
    norm_num [calculateSpeedScore, gameScoreEx]
  have hconsensus : calculateConsensusScore gameScoreEx = 1 := by
    simp only [calculateConsensusScore]
    rw [show gameScoreEx.decisions = [decScore, decScore2] from rfl]
    rw [List.filterMap_cons, List.filterMap_cons, List.filterMap_nil]
    norm_num [decScore, decScore2, lookupCount]
  have hcomplete : gameScoreEx.isComplete = true := rfl
  simp only [calculateGameScore, hcomplete]
  rw [hquality, hspeed, hconsensus]
  norm_num [gameScoreEx, gameScoreExResult, secondsQ]

/-- C8 counterexample: on the completed session `gameScoreEx` the game scorer
(`Scorer.CalculateGameScore`, the symbol the claim cites) returns TotalScore
128 = 10·2 + 100 + 0 + 2·4, while the claimed formula additionally adds the
integer-truncated quality (1), speed (0) and consensus (1) sub-scores, giving
130: those sub-scores are computed and stored but never added to the
total. -/
theorem gameScore_counterexample :
    calculateGameScore gameScoreEx = some gameScoreExResult ∧
    gameScoreExResult.totalScore = 128 ∧
    10 * gameScoreEx.metrics.totalDecisions + 100 + gameScoreExResult.efficiencyBonus +
        2 * gameScoreEx.metrics.totalVotes +
        goTrunc gameScoreExResult.qualityScore + goTrunc gameScoreExResult.speedScore +
        goTrunc gameScoreExResult.consensusScore = 130 ∧
    (128 : Int) ≠ 130 := by
  have h0 : goTrunc 0 = 0 := by norm_num [goTrunc]
  have h1 : goTrunc 1 = 1 := by norm_num [goTrunc]
  refine ⟨gameScoreEx_eval, rfl, ?_, by decide⟩
  norm_num [gameScoreExResult, gameScoreEx, h0, h1]

/-- C8 (amended): the game scorer returns no score exactly on non-terminal
sessions; on a terminal session its total equals 10·TotalDecisions, plus 100
if the session state is Completed, plus the tiered efficiency bonus on
AverageConsensusTime, plus 2·TotalVotes — the quality, speed and consensus
sub-scores are computed and reported alongside but not added to the total.
(The project-vocabulary duplicate of the scorer does add their integer
truncations, as its final conjunct records.) -/
theorem gameScore_total (g : Project) :
    (calculateGameScore g = none ↔ g.isComplete = false) ∧
    (∀ s, calculateGameScore g = some s →
      s.totalScore = g.metrics.totalDecisions * 10 +
        (if g.state = .completed then 100 else 0) + s.efficiencyBonus +
        g.metrics.totalVotes * 2 ∧
      s.efficiencyBonus = (if g.metrics.averageConsensusTime > 0 then
          (if secondsQ g.metrics.averageConsensusTime < 10 then 50
           else if secondsQ g.metrics.averageConsensusTime < 30 then 30
           else if secondsQ g.metrics.averageConsensusTime < 60 then 15 else 0)
        else 0) ∧
      s.qualityScore = calculateQualityScore g ∧
      s.speedScore = calculateSpeedScore g ∧
      s.consensusScore = calculateConsensusScore g) ∧
    (∀ s, calculateProjectScore g = some s →
      s.totalScore = g.metrics.totalDecisions * 10 +
        (if g.state = .completed then 100 else 0) + s.efficiencyBonus +
        g.metrics.totalVotes * 2 + goTrunc (calculateQualityScore g) +
        goTrunc (calculateSpeedScore g) + goTrunc (calculateConsensusScore g)) := by
  refine ⟨?_, ?_, ?_⟩
  · by_cases hc : g.isComplete = true
    · simp [calculateGameScore, hc]
    · have hc' : g.isComplete = false := by simpa using hc
      simp [calculateGameScore, hc']
  · intro s hs
    by_cases hc : g.isComplete = true
    · rw [show calculateGameScore g = some
          { gameID := g.id,
            totalScore := g.metrics.totalDecisions * 10 +
              (if g.state = .completed then 100 else 0) +
              (if g.metrics.averageConsensusTime > 0 then
                (if secondsQ g.metrics.averageConsensusTime < 10 then 50
                 else if secondsQ g.metrics.averageConsensusTime < 30 then 30
                 else if secondsQ g.metrics.averageConsensusTime < 60 then 15 else 0)
               else 0) + g.metrics.totalVotes * 2,
            completionBonus := (if g.state = .completed then 100 else 0),
            efficiencyBonus := (if g.metrics.averageConsensusTime > 0 then
                (if secondsQ g.metrics.averageConsensusTime < 10 then 50
                 else if secondsQ g.metrics.averageConsensusTime < 30 then 30
                 else if secondsQ g.metrics.averageConsensusTime < 60 then 15 else 0)
               else 0),
            participationBonus := g.metrics.totalVotes * 2,
            qualityScore := calculateQualityScore g,
            speedScore := calculateSpeedScore g,
            consensusScore := calculateConsensusScore g,
            gameAverageConsensusTime := 0 }
        from by simp [calculateGameScore, hc]] at hs
      injection hs with hs1
      rw [← hs1]
      exact ⟨rfl, rfl, rfl, rfl, rfl⟩
    · have hc' : g.isComplete = false := by simpa using hc
      simp [calculateGameScore, hc'] at hs
  · intro s hs
    by_cases hc : g.isComplete = true
    · rw [show calculateProjectScore g = some
          { gameID := g.id,
            totalScore := g.metrics.totalDecisions * 10 +
              (if g.state = .completed then 100 else 0) +
              (if g.metrics.averageConsensusTime > 0 then
                (if secondsQ g.metrics.averageConsensusTime < 30 then 50
                 else if secondsQ g.metrics.averageConsensusTime < 60 then 25 else 0)
               else 0) + g.metrics.totalVotes * 2 +
              goTrunc (calculateQualityScore g) + goTrunc (calculateSpeedScore g) +
              goTrunc (calculateConsensusScore g),
            completionBonus := (if g.state = .completed then 100 else 0),
            efficiencyBonus := (if g.metrics.averageConsensusTime > 0 then
                (if secondsQ g.metrics.averageConsensusTime < 30 then 50
                 else if secondsQ g.metrics.averageConsensusTime < 60 then 25 else 0)
               else 0),
            participationBonus := g.metrics.totalVotes * 2,
            qualityScore := calculateQualityScore g,
            speedScore := calculateSpeedScore g,
            consensusScore := calculateConsensusScore g,
            gameAverageConsensusTime := g.metrics.averageConsensusTime }
        from by simp [calculateProjectScore, hc]] at hs
      injection hs with hs1
      rw [← hs1]
    · have hc' : g.isComplete = false := by simpa using hc
      simp [calculateProjectScore, hc'] at hs

/-- Witness for C8: the total on `gameScoreEx` decomposes as
10·1 + 100 + 0 + 2·2 = 114 with the sub-scores left out. -/
theorem gameScore_total_witness :
    gameScoreExResult.totalScore = gameScoreEx.metrics.totalDecisions * 10 +
      (if gameScoreEx.state = .completed then 100 else 0) +
      gameScoreExResult.efficiencyBonus + gameScoreEx.metrics.totalVotes * 2 :=
  ((gameScore_total gameScoreEx).2.1 gameScoreExResult gameScoreEx_eval).1

end Voter
